import Mathlib

/-!
Verification development for the `xi_service` core of the tfmGLD repository
(`services/xi_service.py`): position eligibility, z-score based player
scoring, the XI assignment optimizer (budget-constrained integer program
with Hungarian fallback) and the squad comparator.

Conventions of the embedding:
* pandas numeric cells are modelled as `Option ℚ`; `none` models a missing
  value / NaN, and arithmetic is exact (float rounding is out of scope).
* The external solvers (`pulp`/CBC and `scipy.optimize.linear_sum_assignment`)
  are not part of the repository; their outputs enter the definitions as
  explicit parameters constrained by the structural guarantees those solvers
  document (`SolverOk`, `ValidMatching`).
* DataFrame mutation is modelled explicitly by a heap of frames (`Heap`) for
  the frame-effect statements about `score_players` / `score_for_slot`.
-/

namespace XiService

/-- Python `str.upper()` on the (ASCII) position and slot tags: uppercase
every character.  (Equivalent to `String.toUpper`, but stated directly on the
character list so that the kernel can evaluate it.) -/
def strUpper (s : String) : String := ⟨s.data.map Char.toUpper⟩

/-- Python substring containment `needle in hay` on character lists:
true iff `needle` occurs contiguously inside `hay`. -/
def containsSub (needle : List Char) : List Char → Bool
  | [] => needle.isPrefixOf []
  | c :: t => needle.isPrefixOf (c :: t) || containsSub needle t

/-- Constant `ELIGIBLE_MAP` from `services/xi_service.py`: slot identifier to the list
of accepted raw-position substrings. -/
def ELIGIBLE_MAP : List (String × List String) :=
  [("GK", ["GK"]),
   ("LB", ["LB","LWB","FB","WB","LB/LWB"]),
   ("RB", ["RB","RWB","FB","WB","RB/RWB"]),
   ("LCB", ["CB","LCB","DEF"]),
   ("RCB", ["CB","RCB","DEF"]),
   ("CM", ["CM","DM","AM","LCM","RCM","MID"]),
   ("LCM", ["CM","LCM","DM","MID","AM"]),
   ("RCM", ["CM","RCM","DM","MID","AM"]),
   ("LDM", ["DM","CM","MID"]),
   ("CDM", ["DM","CM","MID"]),
   ("RDM", ["DM","CM","MID"]),
   ("LM", ["LM","LW","MID"]),
   ("RM", ["RM","RW","MID"]),
   ("CAM", ["AM","CM"]),
   ("LAM", ["AM","LW","LM"]),
   ("RAM", ["AM","RW","RM"]),
   ("LW", ["LW","LM","AM"]),
   ("RW", ["RW","RM","AM"]),
   ("ST", ["ST","CF","FW"]),
   ("LS", ["ST","CF","FW"]),
   ("RS", ["ST","CF","FW"])]

/-- Constant `FORMATIONS` from `services/xi_service.py`. -/
def FORMATIONS : List (String × List String) :=
  [("4-3-3", ["GK","LB","LCB","RCB","RB","LCM","CM","RCM","LW","ST","RW"]),
   ("4-2-3-1", ["GK","LB","LCB","RCB","RB","LDM","CDM","RDM","LAM","CAM","RAM","ST"]),
   ("4-4-2", ["GK","LB","LCB","RCB","RB","LM","LCM","RCM","RM","LS","RS"])]

/-- The nested `eligible` helper of `optimize_xi`:
`poss = ELIGIBLE_MAP.get(slot, [slot]); rp = str(row_pos).upper();`
`return any(p in rp for p in poss)`. -/
def eligible (slot : String) (row_pos : String) : Bool :=
  let poss := (ELIGIBLE_MAP.lookup slot).getD [slot]
  let rp := strUpper row_pos
  poss.any (fun p => containsSub p.toList rp.toList)

/-- One row of the player pool (`load_player_pool` canonical columns that the
optimizer reads); numeric statistics are `Option ℚ` where `none` is NaN. -/
structure Row where
  name : String
  pos : String
  minutes : Option ℚ
  goals : Option ℚ
  assists : Option ℚ
  xG : Option ℚ
  market_value_mil : Option ℚ
deriving DecidableEq, Inhabited

/-- A pandas DataFrame as the optimizer sees it: the base rows plus the
columns that `score_players` / `score_for_slot` may have attached.  A field
being `none` means the corresponding column is absent from the frame. -/
structure DF where
  rows : List Row
  zMinutes : Option (List (Option ℚ))
  zGoals : Option (List (Option ℚ))
  zAssists : Option (List (Option ℚ))
  zXG : Option (List (Option ℚ))
  score : Option (List ℚ)
  scoreSlot : Option (List ℚ)
deriving DecidableEq, Inhabited

/-- The weight dictionary read by `score_players`; only the four recognized
keys are ever consulted, so only those are modelled.  A `none` field means
the key is absent and the hard-coded default applies. -/
structure Weights where
  minutes : Option ℚ
  goals : Option ℚ
  assists : Option ℚ
  xG : Option ℚ
deriving DecidableEq, Inhabited

/-- The non-missing entries of a column, in order (what pandas `skipna`
statistics are computed from). -/
def presentVals (s : List (Option ℚ)) : List ℚ := s.filterMap id

/-- Model of `Series.mean(skipna=True)`: `none` (NaN) when no non-missing value
exists. -/
def seriesMean (s : List (Option ℚ)) : Option ℚ :=
  let v := presentVals s
  if v.length = 0 then none else some (v.sum / (v.length : ℚ))

/-- The square of `Series.std(skipna=True)` (sample variance, `ddof = 1`)
over the non-missing entries; `none` when fewer than two non-missing values
exist, which is exactly when the pandas standard deviation is NaN.  Since the
standard deviation is the square root of this quantity, `sd == 0` in the
source is equivalent to this being `some 0`, and `isnan(sd)` to `none`. -/
def sampleVar (s : List (Option ℚ)) : Option ℚ :=
  let v := presentVals s
  if v.length < 2 then none
  else some ((v.map (fun x => (x - v.sum / (v.length : ℚ)) ^ 2)).sum / ((v.length : ℚ) - 1))

/-- Model of `zscore` from `services/xi_service.py`.  The input column is already
coerced (`pd.to_numeric(errors="coerce")` is the `Option ℚ` representation).
The degenerate guard `sd is None or sd == 0 or isnan(sd)` is stated on the
variance (see `sampleVar`); the branch result `s*0` keeps missing entries
missing (`NaN*0 = NaN`) and zeroes the rest.  The square root used by the
non-degenerate branch is the abstract parameter `qsqrt`: no verified
property examines a non-degenerate z value. -/
def zscore (qsqrt : ℚ → ℚ) (s : List (Option ℚ)) : List (Option ℚ) :=
  match sampleVar s with
  | none => s.map (fun x => x.map (fun v => v * 0))
  | some va =>
    if va = 0 then s.map (fun x => x.map (fun v => v * 0))
    else
      let mu := (seriesMean s).getD 0
      let sd := qsqrt va
      s.map (fun x => x.map (fun v => (v - mu) / sd))

/-- Model of `score_players` from `services/xi_service.py`: attach the four z-score
columns and the weighted `score` column to a copy of the frame.
`out["score"] = w.get("minutes",0.2)*z_minutes.fillna(0) + ...`;
`fillna(0)` is the inner `.getD 0`. -/
def score_players (qsqrt : ℚ → ℚ) (df : DF) (w : Weights) : DF :=
  let zm := zscore qsqrt (df.rows.map (·.minutes))
  let zg := zscore qsqrt (df.rows.map (·.goals))
  let za := zscore qsqrt (df.rows.map (·.assists))
  let zx := zscore qsqrt (df.rows.map (·.xG))
  { df with
    zMinutes := some zm, zGoals := some zg, zAssists := some za, zXG := some zx,
    score := some ((List.range df.rows.length).map (fun i =>
      w.minutes.getD 0.2 * ((zm.getD i none).getD 0) +
      w.goals.getD 0.4 * ((zg.getD i none).getD 0) +
      w.assists.getD 0.2 * ((za.getD i none).getD 0) +
      w.xG.getD 0.2 * ((zx.getD i none).getD 0))) }

/-- Model of `slot_weights` from `services/xi_service.py` (preset weight dictionaries
per slot class; all four keys are always supplied). -/
def slot_weights (slot : String) : Weights :=
  let s := strUpper slot
  if ["ST","LS","RS","CF","LW","RW","LAM","RAM"].contains s then
    { minutes := some 0, goals := some 0.5, assists := some 0.2, xG := some 0.3 }
  else if ["CAM","CM","LCM","RCM","CDM","LDM","RDM","LM","RM"].contains s then
    { minutes := some 0.3, goals := some 0.1, assists := some 0.4, xG := some 0.2 }
  else if ["LB","RB","LCB","RCB"].contains s then
    { minutes := some 0.6, goals := some 0.1, assists := some 0.2, xG := some 0.1 }
  else if s = "GK" then
    { minutes := some 1, goals := some 0, assists := some 0, xG := some 0 }
  else
    { minutes := some 0.4, goals := some 0.2, assists := some 0.2, xG := some 0.2 }

/-- Model of `score_for_slot`: score the pool with the slot's preset weights and copy
the `score` column into `score_slot`. -/
def score_for_slot (qsqrt : ℚ → ℚ) (pool : DF) (slot : String) : DF :=
  let out := score_players qsqrt pool (slot_weights slot)
  { out with scoreSlot := out.score }

/-- The sentinel cost `1e6` blocking ineligible pairs in the Hungarian
cost matrix. -/
def bigM : ℚ := 1000000

/-- One entry of the Hungarian cost matrix built by `optimize_xi`:
`np.full((n, m), 1e6)` overwritten at eligible in-range pairs by
`-float(row.get("score_slot", row.get("score", 0.0)))` (after
`score_for_slot`, `score_slot` is always present).  Entries outside the
`n × m` matrix do not exist in the source; they are modelled as the sentinel
so that out-of-range pairs are never selected. -/
def cost (qsqrt : ℚ → ℚ) (pool : DF) (slots : List String) (i j : Nat) : ℚ :=
  if i < pool.rows.length ∧ j < slots.length then
    if eligible (slots.getD j "") (pool.rows.getD i default).pos then
      -(((score_for_slot qsqrt pool (slots.getD j "")).scoreSlot.getD []).getD i 0)
    else bigM
  else bigM

/-- The post-solve loop of the unconstrained branch of `optimize_xi`:
walk the solver's `(row, column)` pairs in order, keep a pair when its cost
is below the sentinel and its slot name is not yet used, and break as soon
as every slot name is used. -/
def huntChoose (qsqrt : ℚ → ℚ) (pool : DF) (slots : List String) :
    List (Nat × Nat) → List String → List (String × Nat)
  | [], _ => []
  | (i, j) :: rest, used =>
    let slotName := slots.getD j ""
    if cost qsqrt pool slots i j < bigM ∧ slotName ∉ used then
      (slotName, i) ::
        (if (slotName :: used).length = slots.length then []
         else huntChoose qsqrt pool slots rest (slotName :: used))
    else
      (if used.length = slots.length then []
       else huntChoose qsqrt pool slots rest used)

/-- The unconstrained (Hungarian) branch of `optimize_xi`, parametric in the
matching `pr` returned by `scipy.optimize.linear_sum_assignment`.
A chosen pair `(slotName, i)` stands for `(slots[j], pool.iloc[i].to_dict())`:
the selected pool row is identified by its index. -/
def hungarianAssign (qsqrt : ℚ → ℚ) (pool : DF) (slots : List String)
    (pr : List (Nat × Nat)) : List (String × Nat) :=
  huntChoose qsqrt pool slots pr []

/-- Structural guarantees of `scipy.optimize.linear_sum_assignment` on an
`n × m` matrix: in-range indices, no row repeated, no column repeated. -/
abbrev ValidMatching (n m : Nat) (pr : List (Nat × Nat)) : Prop :=
  (∀ p ∈ pr, p.1 < n ∧ p.2 < m) ∧ (pr.map Prod.fst).Nodup ∧ (pr.map Prod.snd).Nodup

/-- The integer program's variable set: one binary variable per eligible
(player `i`, slot `j`) pair, in the source's iteration order (rows outer,
slots inner). -/
def ilpVarset (pool : DF) (slots : List String) : List (Nat × Nat) :=
  (List.range pool.rows.length).flatMap (fun i =>
    (List.range slots.length).filterMap (fun j =>
      if eligible (slots.getD j "") (pool.rows.getD i default).pos then some (i, j)
      else none))

/-- Model of `pool["market_value_mil"].notna().any()`: the guard that switches the
budget constraint on. -/
def anyMV (pool : DF) : Bool := pool.rows.any (fun r => r.market_value_mil.isSome)

/-- The sum of `pool.loc[i,"market_value_mil"]` over `pool.index` (missing
values modelled as contributing 0; the amended budget statements assume every
market value is present, since a NaN coefficient makes the source's linear
program ill-defined). -/
def poolMvSum (pool : DF) : ℚ :=
  ((List.range pool.rows.length).map
    (fun i => ((pool.rows.getD i default).market_value_mil).getD 0)).sum

/-- Feasibility of a 0/1 selection for the source's integer program:
variables only at eligible pairs, each slot exactly one, each player at most
one, and the budget constraint as the source actually writes it.  Note the
source's inner generator `pulp.lpSum(x[(i,j)] for (i,j) in x if i==i)` sums
over ALL variables (the filter `i==i` is vacuous), so the emitted constraint
is `(sum of all market values) * (number of selected pairs) <= budget`. -/
def IlpFeasible (pool : DF) (slots : List String) (b : ℚ)
    (sel : List (Nat × Nat)) : Prop :=
  sel ⊆ ilpVarset pool slots ∧
  (∀ j, j < slots.length → (sel.filter (fun p => p.2 == j)).length = 1) ∧
  (∀ i, (sel.filter (fun p => p.1 == i)).length ≤ 1) ∧
  (anyMV pool = true → poolMvSum pool * (sel.length : ℚ) ≤ b)

/-- What PuLP/CBC guarantees about the variable values read back after
`prob.solve`: when the program is feasible the selected variables form a
feasible selection (CBC returns a feasible optimum), and when it is
infeasible no variable reads back as 1, so the selection is empty. -/
def SolverOk (pool : DF) (slots : List String) (b : ℚ) (v : Nat × Nat → Bool) : Prop :=
  IlpFeasible pool slots b ((ilpVarset pool slots).filter v) ∨
    ((¬ ∃ sel, IlpFeasible pool slots b sel) ∧ (ilpVarset pool slots).filter v = [])

/-- Model of `optimize_xi` for a given slot list (`slots = FORMATIONS[formation]`),
returning `(slot name, pool row index)` pairs.  With a budget the source
tries the PuLP integer program inside `try/except`:
* reading `pool.loc[i,"score"]` for the objective raises `KeyError` when the
  frame has no `score` column — but only if at least one variable exists, as
  the objective generator is lazy; the `except` then falls through to the
  Hungarian branch;
* otherwise the selection is read back from the solver (`v`), in variable
  order, and mapped to `(slots[j], row i)`.
Without a budget (or after an exception) the Hungarian branch runs.
The leading `pool.copy().reset_index(drop=True)` is a pure copy. -/
def optimizeXiCore (qsqrt : ℚ → ℚ) (slots : List String) (pool : DF)
    (budget : Option ℚ) (v : Nat × Nat → Bool) (pr : List (Nat × Nat)) :
    List (String × Nat) :=
  match budget with
  | some _ =>
    if pool.score = none ∧ ilpVarset pool slots ≠ [] then
      hungarianAssign qsqrt pool slots pr
    else
      ((ilpVarset pool slots).filter v).map (fun p => (slots.getD p.2 "", p.1))
  | none => hungarianAssign qsqrt pool slots pr

/-- Total `market_value_mil` of the selected rows (missing as 0). -/
def selectedValue (pool : DF) (sel : List (String × Nat)) : ℚ :=
  (sel.map (fun p => ((pool.rows.getD p.2 default).market_value_mil).getD 0)).sum

/-! ### The four scored metrics, and the per-metric contribution to `score` -/

/-- The four metrics `score_players` iterates over. -/
inductive Metric where
  | minutes | goals | assists | xG
deriving DecidableEq

/-- The raw column of a metric. -/
def metricCol (df : DF) : Metric → List (Option ℚ)
  | .minutes => df.rows.map (·.minutes)
  | .goals => df.rows.map (·.goals)
  | .assists => df.rows.map (·.assists)
  | .xG => df.rows.map (·.xG)

/-- The weight coefficient `weights.get(m, default)` used for a metric in
`score_players`. -/
def metricWeight (w : Weights) : Metric → ℚ
  | .minutes => w.minutes.getD 0.2
  | .goals => w.goals.getD 0.4
  | .assists => w.assists.getD 0.2
  | .xG => w.xG.getD 0.2

/-- A single metric's contribution to player `i`'s score:
`weights.get(m, default) * z_m.fillna(0)[i]`. -/
def metricTerm (qsqrt : ℚ → ℚ) (df : DF) (w : Weights) (m : Metric) (i : Nat) : ℚ :=
  metricWeight w m * (((zscore qsqrt (metricCol df m)).getD i none).getD 0)

/-! ### Frame heap: explicit model of DataFrame aliasing and mutation -/

/-- A heap of live frames; an address is an index into the list. -/
abbrev Heap := List DF

/-- Read the frame at an address. -/
def heapRead (h : Heap) (r : Nat) : DF := h.getD r default

/-- In-place mutation of the frame at an address. -/
def heapWrite (h : Heap) (r : Nat) (d : DF) : Heap := h.set r d

/-- Model of `df.copy()`: allocate a fresh frame holding the same contents and return
its address. -/
def dfCopy (h : Heap) (r : Nat) : Heap × Nat := (h ++ [heapRead h r], h.length)

/-- Model of `score_players` as it executes against the frame heap: copy the input
frame (`out = df.copy()`), then attach the four z columns and the `score`
column in place on the copy (the five in-place column assignments of the
source, composed). -/
def score_players_heap (qsqrt : ℚ → ℚ) (h : Heap) (r : Nat) (w : Weights) :
    Heap × Nat :=
  let hc := dfCopy h r
  (heapWrite hc.1 hc.2 (score_players qsqrt (heapRead hc.1 hc.2) w), hc.2)

/-- Model of `score_for_slot` against the frame heap: `out = score_players(pool, w)`,
then `out = out.copy()`, then `out["score_slot"] = out["score"]` in place. -/
def score_for_slot_heap (qsqrt : ℚ → ℚ) (h : Heap) (r : Nat) (slot : String) :
    Heap × Nat :=
  let s1 := score_players_heap qsqrt h r (slot_weights slot)
  let s2 := dfCopy s1.1 s1.2
  (heapWrite s2.1 s2.2
    (let d := heapRead s2.1 s2.2; { d with scoreSlot := d.score }), s2.2)

/-! ### Squad and comparator -/

/-- The player snapshot stored in a squad slot (`Squad.add` builds this
dict from a `Player`). -/
structure PlayerSnap where
  name : String
  team : String
  league : String
  season : String
  position : String
  age : Option ℚ
  market_value_mil : Option ℚ
  goals : Option ℚ
  assists : Option ℚ
  xG : Option ℚ
  minutes : Option ℚ
deriving DecidableEq, Inhabited

/-- A squad: a formation name and its ordered slot dictionary, each slot
holding at most one player snapshot. -/
structure Squad where
  formation : String
  slots : List (String × Option PlayerSnap)
deriving DecidableEq, Inhabited

/-- Model of `Squad(formation)` with `__post_init__`: one empty slot per formation
position.  (Only used on formation names present in `FORMATIONS`; an unknown
name raises in the source.) -/
def Squad.new (formation : String) : Squad :=
  ⟨formation, ((FORMATIONS.lookup formation).getD []).map (fun p => (p, none))⟩

/-- One row of `Squad.to_dataframe` (the columns the comparator aggregates;
`p.get(...)` on an empty slot yields missing). -/
structure SquadRow where
  posName : String
  edad : Option ℚ
  valorM : Option ℚ
  minutos : Option ℚ
  goles : Option ℚ
  asist : Option ℚ
  xg : Option ℚ
deriving DecidableEq, Inhabited

/-- Model of `Squad.to_dataframe`: one row per slot in dictionary (formation) order. -/
def Squad.to_dataframe (sq : Squad) : List SquadRow :=
  sq.slots.map (fun s =>
    { posName := s.1,
      edad := s.2.bind (·.age),
      valorM := s.2.bind (·.market_value_mil),
      minutos := s.2.bind (·.minutes),
      goles := s.2.bind (·.goals),
      asist := s.2.bind (·.assists),
      xg := s.2.bind (·.xG) })

/-- Model of `pd.to_numeric(col, errors="coerce").fillna(0).sum()`. -/
def sumCol (xs : List (Option ℚ)) : ℚ := (xs.map (·.getD 0)).sum

/-- The aggregate row computed by `compare_squads.agg` for one squad.
`edadMedia` is `pd.to_numeric(df["Edad"]).mean()`: NaN (`none`) when no age
is present. -/
structure SquadAgg where
  valorTotal : ℚ
  edadMedia : Option ℚ
  minTotales : ℚ
  golesTotales : ℚ
  asistTotales : ℚ
  xgTotal : ℚ
deriving DecidableEq, Inhabited

/-- Model of `agg` from `compare_squads`. -/
def agg (df : List SquadRow) : SquadAgg :=
  { valorTotal := sumCol (df.map (·.valorM)),
    edadMedia := seriesMean (df.map (·.edad)),
    minTotales := sumCol (df.map (·.minutos)),
    golesTotales := sumCol (df.map (·.goles)),
    asistTotales := sumCol (df.map (·.asist)),
    xgTotal := sumCol (df.map (·.xg)) }

/-- NaN-propagating subtraction of aggregate cells (`NaN - x = NaN`). -/
def optSub : Option ℚ → Option ℚ → Option ℚ
  | some x, some y => some (x - y)
  | _, _ => none

/-- The delta column `Δ (B - A)` of `compare_squads`. -/
structure SquadDelta where
  valorTotal : ℚ
  edadMedia : Option ℚ
  minTotales : ℚ
  golesTotales : ℚ
  asistTotales : ℚ
  xgTotal : ℚ
deriving DecidableEq, Inhabited

/-- Model of `compare_squads`: the two aggregate columns and the delta column. -/
def compare_squads (a b : Squad) : SquadAgg × SquadAgg × SquadDelta :=
  let A := agg a.to_dataframe
  let B := agg b.to_dataframe
  (A, B,
    { valorTotal := B.valorTotal - A.valorTotal,
      edadMedia := optSub B.edadMedia A.edadMedia,
      minTotales := B.minTotales - A.minTotales,
      golesTotales := B.golesTotales - A.golesTotales,
      asistTotales := B.asistTotales - A.asistTotales,
      xgTotal := B.xgTotal - A.xgTotal })

/-- The property claimed of `compare_squads(A, A)`: every delta cell is 0. -/
def DeltaZero (d : SquadDelta) : Prop :=
  d.valorTotal = 0 ∧ d.edadMedia = some 0 ∧ d.minTotales = 0 ∧
  d.golesTotales = 0 ∧ d.asistTotales = 0 ∧ d.xgTotal = 0

/-! ### Spec-side definitions (for refinement claims) -/

/-- Eligibility as §4.2 of the spec words it: some accepted tag (the slot
name itself when the slot is absent from the map) occurs as a substring of
the uppercased raw position. -/
def EligibleSpec (slot : String) (raw_position : String) : Prop :=
  ∃ p ∈ (ELIGIBLE_MAP.lookup slot).getD [slot],
    p.toList <:+: (strUpper raw_position).toList

/-! ### Concrete instances used by witnesses and counterexamples -/

/-- Trivial stand-in for the abstract square root (no verified property
depends on its value). -/
def qsqrt0 : ℚ → ℚ := fun _ => 0

/-- Solver read-back with no variable set to 1. -/
def vFalse : Nat × Nat → Bool := fun _ => false

/-- The slot list of formation `4-3-3`. -/
def slots433 : List String :=
  ["GK","LB","LCB","RCB","RB","LCM","CM","RCM","LW","ST","RW"]

/-- A goalkeeper row with market value 50. -/
def gkRow50 : Row :=
  { name := "A", pos := "GK", minutes := some 900, goals := some 0,
    assists := some 0, xG := some 0, market_value_mil := some 50 }

/-- A goalkeeper row with market value 10. -/
def gkRow10 : Row :=
  { name := "B", pos := "GK", minutes := some 900, goals := some 0,
    assists := some 0, xG := some 0, market_value_mil := some 10 }

/-- One-player pool WITHOUT a precomputed `score` column. -/
def poolNoScore : DF :=
  { rows := [gkRow50], zMinutes := none, zGoals := none, zAssists := none,
    zXG := none, score := none, scoreSlot := none }

/-- One-player pool WITH a precomputed `score` column. -/
def poolScored : DF :=
  { rows := [gkRow10], zMinutes := none, zGoals := none, zAssists := none,
    zXG := none, score := some [0], scoreSlot := none }

/-- The empty pool. -/
def poolEmpty : DF :=
  { rows := [], zMinutes := none, zGoals := none, zAssists := none,
    zXG := none, score := none, scoreSlot := none }

/-- A player snapshot with an age, for the comparator witness. -/
def snapA : PlayerSnap :=
  { name := "A", team := "T", league := "L", season := "S", position := "GK",
    age := some 30, market_value_mil := some 50, goals := some 0,
    assists := some 0, xG := some 0, minutes := some 900 }

/-- A squad with one filled slot. -/
def sqA : Squad := ⟨"4-3-3", [("GK", some snapA)]⟩

/-! ### Helper lemmas -/

/-- Correctness of `containsSub`: it decides substring (infix) containment. -/
lemma containsSub_correct (n : List Char) :
    ∀ h, containsSub n h = true ↔ n <:+: h := by
  intro h
  induction h with
  | nil => simp [containsSub, List.isPrefixOf_iff_prefix]
  | cons c t ih =>
    simp [containsSub, List.isPrefixOf_iff_prefix, List.infix_cons_iff, ih]

/-- A list of equal rationals sums to its length times the common value. -/
lemma sum_eq_length_mul {l : List ℚ} {c : ℚ} (h : ∀ x ∈ l, x = c) :
    l.sum = (l.length : ℚ) * c := by
  induction l with
  | nil => simp
  | cons a t ih =>
    simp only [List.sum_cons, List.length_cons]
    rw [h a (by simp), ih (fun x hx => h x (by simp [hx]))]
    push_cast; ring

/-- A constant (possibly short or empty) column has variance `none` or 0. -/
lemma sampleVar_degenerate {s : List (Option ℚ)}
    (h : ∀ x ∈ presentVals s, ∀ y ∈ presentVals s, x = y) :
    sampleVar s = none ∨ sampleVar s = some 0 := by
  by_cases hl : (presentVals s).length < 2
  · left; simp [sampleVar, hl]
  · right
    simp only [sampleVar, if_neg hl]
    obtain ⟨c, t, hct⟩ : ∃ c t, presentVals s = c :: t := by
      cases hv : presentVals s with
      | nil => rw [hv] at hl; simp at hl
      | cons c t => exact ⟨c, t, rfl⟩
    have hc : ∀ x ∈ presentVals s, x = c := fun x hx =>
      h x hx c (by rw [hct]; exact List.mem_cons_self c t)
    have hlen : ((presentVals s).length : ℚ) ≠ 0 := by
      have h2 : 2 ≤ (presentVals s).length := Nat.le_of_not_lt hl
      have : (presentVals s).length ≠ 0 := by omega
      exact_mod_cast this
    have hsum : (presentVals s).sum = ((presentVals s).length : ℚ) * c :=
      sum_eq_length_mul hc
    have hzero : ((presentVals s).map
        (fun x => (x - (presentVals s).sum / ((presentVals s).length : ℚ)) ^ 2)).sum = 0 := by
      apply List.sum_eq_zero
      intro y hy
      obtain ⟨x, hx, rfl⟩ := List.mem_map.1 hy
      rw [hc x hx, hsum, mul_comm, mul_div_assoc, div_self hlen, mul_one, sub_self]
      ring
    rw [hzero, zero_div]

/-- Under a constant column, every `fillna(0)` z entry is 0. -/
lemma zscore_degenerate_entry (qsqrt : ℚ → ℚ) {s : List (Option ℚ)}
    (h : ∀ x ∈ presentVals s, ∀ y ∈ presentVals s, x = y) (i : Nat) :
    ((zscore qsqrt s).getD i none).getD 0 = 0 := by
  have hz : zscore qsqrt s = s.map (fun x => x.map (fun v => v * 0)) := by
    rcases sampleVar_degenerate h with h0 | h0 <;> simp [zscore, h0]
  rw [hz, List.getD_eq_getElem?_getD, List.getElem?_map]
  cases s[i]? with
  | none => simp
  | some x => cases x <;> simp

/-- A cost below the sentinel certifies an in-range, eligible pair. -/
lemma eligible_of_cost_lt {qsqrt : ℚ → ℚ} {pool : DF} {slots : List String}
    {i j : Nat} (h : cost qsqrt pool slots i j < bigM) :
    i < pool.rows.length ∧ j < slots.length ∧
    eligible (slots.getD j "") (pool.rows.getD i default).pos = true := by
  by_cases hb : i < pool.rows.length ∧ j < slots.length
  · refine ⟨hb.1, hb.2, ?_⟩
    by_cases he : eligible (slots.getD j "") (pool.rows.getD i default).pos = true
    · exact he
    · rw [cost, if_pos hb, if_neg he] at h
      exact absurd h (lt_irrefl _)
  · rw [cost, if_neg hb] at h
    exact absurd h (lt_irrefl _)

/-- Membership in the integer program's variable set. -/
lemma mem_ilpVarset {pool : DF} {slots : List String} {i j : Nat} :
    (i, j) ∈ ilpVarset pool slots ↔
      i < pool.rows.length ∧ j < slots.length ∧
      eligible (slots.getD j "") (pool.rows.getD i default).pos = true := by
  simp only [ilpVarset, List.mem_flatMap, List.mem_filterMap, List.mem_range,
    Option.ite_none_right_eq_some, Option.some_inj, Prod.mk.injEq]
  constructor
  · rintro ⟨i', hi', j', hj', he, rfl, rfl⟩
    exact ⟨hi', hj', he⟩
  · rintro ⟨hi, hj, he⟩
    exact ⟨i, hi, j, hj, he, rfl, rfl⟩

/-- The player-at-most-one constraint forces pairwise distinct row indices. -/
lemma nodup_fst_of_player_constraint :
    ∀ (sel : List (Nat × Nat)),
      (∀ i, (sel.filter (fun p => p.1 == i)).length ≤ 1) →
      (sel.map Prod.fst).Nodup := by
  intro sel
  induction sel with
  | nil => intro _; exact List.nodup_nil
  | cons hd rest ih =>
    intro h
    obtain ⟨i0, j0⟩ := hd
    simp only [List.map_cons, List.nodup_cons]
    constructor
    · intro hmem
      obtain ⟨p, hp, hfst⟩ := List.mem_map.1 hmem
      have h0 := h i0
      rw [List.filter_cons_of_pos (by simp)] at h0
      simp only [List.length_cons] at h0
      have hz : (rest.filter (fun p => p.1 == i0)).length = 0 := by omega
      have hmem2 : p ∈ rest.filter (fun p => p.1 == i0) :=
        List.mem_filter.2 ⟨hp, by simp [hfst]⟩
      rw [List.length_eq_zero] at hz
      rw [hz] at hmem2
      simp at hmem2
    · refine ih (fun i => ?_)
      have h1 := h i
      have hle : (rest.filter (fun p => p.1 == i)).length ≤
          (((i0, j0) :: rest).filter (fun p => p.1 == i)).length := by
        simp only [List.filter_cons]
        split
        · simp
        · exact le_refl _
      omega

/-- Every pair kept by the post-solve loop comes from the matching and has a
below-sentinel cost. -/
lemma huntChoose_mem {qsqrt : ℚ → ℚ} {pool : DF} {slots : List String} :
    ∀ (pr : List (Nat × Nat)) (used : List String) (p : String × Nat),
      p ∈ huntChoose qsqrt pool slots pr used →
      ∃ i j, p = (slots.getD j "", i) ∧ (i, j) ∈ pr ∧
        cost qsqrt pool slots i j < bigM := by
  intro pr
  induction pr with
  | nil => intro used p hp; rw [huntChoose] at hp; simp at hp
  | cons hd rest ih =>
    intro used p hp
    obtain ⟨i, j⟩ := hd
    rw [huntChoose] at hp
    by_cases hc : cost qsqrt pool slots i j < bigM ∧ slots.getD j "" ∉ used
    · rw [if_pos hc] at hp
      rcases List.mem_cons.1 hp with rfl | hp'
      · exact ⟨i, j, rfl, List.mem_cons_self _ _, hc.1⟩
      · have hp'' : p ∈ huntChoose qsqrt pool slots rest (slots.getD j "" :: used) := by
          split at hp'
          · simp at hp'
          · exact hp'
        obtain ⟨i', j', hpe, hmem, hcost⟩ := ih _ p hp''
        exact ⟨i', j', hpe, List.mem_cons_of_mem _ hmem, hcost⟩
    · rw [if_neg hc] at hp
      have hp'' : p ∈ huntChoose qsqrt pool slots rest used := by
        split at hp
        · simp at hp
        · exact hp
      obtain ⟨i', j', hpe, hmem, hcost⟩ := ih _ p hp''
      exact ⟨i', j', hpe, List.mem_cons_of_mem _ hmem, hcost⟩

/-- The kept row indices form a sublist of the matching's row indices. -/
lemma huntChoose_snds_sublist {qsqrt : ℚ → ℚ} {pool : DF} {slots : List String} :
    ∀ (pr : List (Nat × Nat)) (used : List String),
      ((huntChoose qsqrt pool slots pr used).map Prod.snd).Sublist
        (pr.map Prod.fst) := by
  intro pr
  induction pr with
  | nil => intro used; rw [huntChoose]; simp
  | cons hd rest ih =>
    intro used
    obtain ⟨i, j⟩ := hd
    rw [huntChoose]
    by_cases hc : cost qsqrt pool slots i j < bigM ∧ slots.getD j "" ∉ used
    · rw [if_pos hc]
      simp only [List.map_cons]
      refine List.Sublist.cons₂ _ ?_
      split
      · simp
      · exact ih _
    · rw [if_neg hc]
      refine List.Sublist.cons _ ?_
      split
      · simp
      · exact ih _

/-- When no cost is below the sentinel, the post-solve loop keeps nothing. -/
lemma huntChoose_eq_nil_of_no_cheap {qsqrt : ℚ → ℚ} {pool : DF} {slots : List String}
    (h : ∀ i j, ¬ cost qsqrt pool slots i j < bigM) :
    ∀ (pr : List (Nat × Nat)) (used : List String),
      huntChoose qsqrt pool slots pr used = [] := by
  intro pr
  induction pr with
  | nil => intro used; rw [huntChoose]
  | cons hd rest ih =>
    intro used
    obtain ⟨i, j⟩ := hd
    rw [huntChoose, if_neg (fun hc => h i j hc.1)]
    split
    · rfl
    · exact ih used

/-- An empty variable set means every cost is at the sentinel. -/
lemma no_cheap_of_varset_nil {qsqrt : ℚ → ℚ} {pool : DF} {slots : List String}
    (h : ilpVarset pool slots = []) (i j : Nat) :
    ¬ cost qsqrt pool slots i j < bigM := by
  intro hc
  obtain ⟨hi, hj, he⟩ := eligible_of_cost_lt hc
  have hm : (i, j) ∈ ilpVarset pool slots := mem_ilpVarset.2 ⟨hi, hj, he⟩
  rw [h] at hm
  simp at hm

/-- With an empty variable set, `optimize_xi` returns the empty assignment in
both modes. -/
lemma optimizeXiCore_eq_nil_of_varset_nil {qsqrt : ℚ → ℚ} {slots : List String}
    {pool : DF} {budget : Option ℚ} {v : Nat × Nat → Bool} {pr : List (Nat × Nat)}
    (h : ilpVarset pool slots = []) :
    optimizeXiCore qsqrt slots pool budget v pr = [] := by
  cases budget with
  | none =>
    simp only [optimizeXiCore, hungarianAssign]
    exact huntChoose_eq_nil_of_no_cheap (no_cheap_of_varset_nil h) pr []
  | some b =>
    simp only [optimizeXiCore]
    rw [if_neg (by simp [h]), h]
    rfl

/-- A slot with no variable makes the integer program infeasible. -/
lemma not_feasible_of_unfilled_slot {pool : DF} {slots : List String} {b : ℚ}
    {j : Nat} (hj : j < slots.length)
    (hnone : ∀ i, (i, j) ∉ ilpVarset pool slots) :
    ¬ ∃ sel, IlpFeasible pool slots b sel := by
  rintro ⟨sel, hsub, hslot, -, -⟩
  have h1 := hslot j hj
  obtain ⟨p, hp⟩ : ∃ p, p ∈ sel.filter (fun p => p.2 == j) := by
    cases hf : sel.filter (fun p => p.2 == j) with
    | nil => rw [hf] at h1; simp at h1
    | cons q t => exact ⟨q, List.mem_cons_self _ _⟩
  obtain ⟨i', j'⟩ := p
  obtain ⟨hpsel, hpj⟩ := List.mem_filter.1 hp
  have hj' : j' = j := by simpa using hpj
  subst hj'
  exact hnone i' (hsub hpsel)

/-- Every formation in the registry has a nonempty slot list. -/
lemma formations_slots_ne_nil {f : String} {slots : List String}
    (h : (f, slots) ∈ FORMATIONS) : slots ≠ [] := by
  simp only [FORMATIONS, List.mem_cons, List.not_mem_nil, or_false,
    Prod.mk.injEq] at h
  rcases h with ⟨-, rfl⟩ | ⟨-, rfl⟩ | ⟨-, rfl⟩ <;> simp

/-- Sums of a nonnegative function over distinct in-range indices are bounded
by the sum over the full index range. -/
lemma sum_map_le_range_sum {idx : List Nat} {n : Nat} {g : Nat → ℚ}
    (hnd : idx.Nodup) (hlt : ∀ i ∈ idx, i < n) (hg : ∀ i, 0 ≤ g i) :
    (idx.map g).sum ≤ ((List.range n).map g).sum := by
  rw [← List.sum_toFinset g hnd, ← List.sum_toFinset g (List.nodup_range n)]
  apply Finset.sum_le_sum_of_subset_of_nonneg
  · intro i hi
    rw [List.mem_toFinset] at hi ⊢
    exact List.mem_range.2 (hlt i hi)
  · intro i _ _
    exact hg i

/-- Sums of nonnegative lists are nonnegative. -/
lemma list_sum_nonneg {l : List ℚ} (h : ∀ x ∈ l, 0 ≤ x) : 0 ≤ l.sum := by
  induction l with
  | nil => simp
  | cons a t ih =>
    simp only [List.sum_cons]
    have := h a (by simp)
    have := ih (fun x hx => h x (by simp [hx]))
    linarith

/-- Each element of a nonnegative list is at most the list's sum. -/
lemma list_single_le_sum {l : List ℚ} (h : ∀ x ∈ l, 0 ≤ x) {x : ℚ}
    (hx : x ∈ l) : x ≤ l.sum := by
  induction l with
  | nil => simp at hx
  | cons a t ih =>
    simp only [List.sum_cons]
    rcases List.mem_cons.1 hx with rfl | hx'
    · have := list_sum_nonneg (fun y hy => h y (List.mem_cons_of_mem _ hy))
      linarith
    · have ha := h a (List.mem_cons_self _ _)
      have := ih (fun y hy => h y (List.mem_cons_of_mem _ hy)) hx'
      linarith

/-- Soundness of the Hungarian branch: distinct row indices, in-range and
eligible pairs only. -/
lemma hungarian_sound {qsqrt : ℚ → ℚ} {pool : DF} {slots : List String}
    {pr : List (Nat × Nat)}
    (hpr : ValidMatching pool.rows.length slots.length pr) :
    ((hungarianAssign qsqrt pool slots pr).map Prod.snd).Nodup ∧
    ∀ p ∈ hungarianAssign qsqrt pool slots pr,
      p.2 < pool.rows.length ∧ eligible p.1 (pool.rows.getD p.2 default).pos = true := by
  constructor
  · exact hpr.2.1.sublist (huntChoose_snds_sublist pr [])
  · intro p hp
    obtain ⟨i, j, rfl, hmem, hcost⟩ := huntChoose_mem pr [] p hp
    obtain ⟨hi, hj, he⟩ := eligible_of_cost_lt hcost
    exact ⟨hi, he⟩

/-- Soundness of a selection read back from the integer program. -/
lemma ilp_output_sound {pool : DF} {slots : List String}
    (sel : List (Nat × Nat)) (hsub : sel ⊆ ilpVarset pool slots)
    (hplayer : ∀ i, (sel.filter (fun p => p.1 == i)).length ≤ 1) :
    ((sel.map (fun p => (slots.getD p.2 "", p.1))).map Prod.snd).Nodup ∧
    ∀ p ∈ sel.map (fun p => (slots.getD p.2 "", p.1)),
      p.2 < pool.rows.length ∧ eligible p.1 (pool.rows.getD p.2 default).pos = true := by
  constructor
  · rw [List.map_map]
    exact nodup_fst_of_player_constraint sel hplayer
  · intro p hp
    obtain ⟨⟨i, j⟩, hmem, rfl⟩ := List.mem_map.1 hp
    obtain ⟨hi, hj, he⟩ := mem_ilpVarset.1 (hsub hmem)
    exact ⟨hi, he⟩

/-! ### Claim C1 -/

/-- C1: for every formation, pool, budget (present or absent), solver
read-back and matching satisfying the external solvers' guarantees, the
assignment returned by `optimize_xi` never selects the same pool row for two
slots, and every selected (slot, player) pair is eligible (the player's raw
position tag passes the slot's eligibility test). -/
theorem optimize_no_dup_no_ineligible (qsqrt : ℚ → ℚ) (f : String)
    (slots : List String) (pool : DF) (budget : Option ℚ)
    (v : Nat × Nat → Bool) (pr : List (Nat × Nat))
    (_hf : (f, slots) ∈ FORMATIONS)
    (hv : ∀ b, budget = some b → SolverOk pool slots b v)
    (hpr : ValidMatching pool.rows.length slots.length pr) :
    ((optimizeXiCore qsqrt slots pool budget v pr).map Prod.snd).Nodup ∧
    ∀ p ∈ optimizeXiCore qsqrt slots pool budget v pr,
      p.2 < pool.rows.length ∧ eligible p.1 (pool.rows.getD p.2 default).pos = true := by
  cases budget with
  | none => exact hungarian_sound hpr
  | some b =>
    simp only [optimizeXiCore]
    by_cases hc : pool.score = none ∧ ilpVarset pool slots ≠ []
    · rw [if_pos hc]
      exact hungarian_sound hpr
    · rw [if_neg hc]
      rcases hv b rfl with hfeas | ⟨-, hnil⟩
      · exact ilp_output_sound _ hfeas.1 hfeas.2.2.1
      · rw [hnil]
        exact ⟨List.nodup_nil, by simp⟩

/-- Witness for C1 at a concrete formation, pool and matching. -/
theorem optimize_no_dup_no_ineligible_witness :
    ValidMatching poolScored.rows.length slots433.length [(0, 0)] ∧
    ((optimizeXiCore qsqrt0 slots433 poolScored none vFalse [(0, 0)]).map
      Prod.snd).Nodup :=
  ⟨by decide,
   (optimize_no_dup_no_ineligible qsqrt0 "4-3-3" slots433 poolScored none
      vFalse [(0, 0)] (by decide) (fun b h => Option.noConfusion h)
      (by decide)).1⟩

/-! ### Claim C8 -/

/-- C8: for every formation and either mode, `optimize_xi` on an empty pool
returns the empty assignment, and when no player in the pool is eligible for
any slot (every cost at the sentinel) it likewise returns the empty
assignment; the embedding is total, so no exception is raised. -/
theorem optimize_empty_pool_or_no_eligible (qsqrt : ℚ → ℚ) (f : String)
    (slots : List String) (pool : DF) (budget : Option ℚ)
    (v : Nat × Nat → Bool) (pr : List (Nat × Nat))
    (_hf : (f, slots) ∈ FORMATIONS) :
    (pool.rows = [] → optimizeXiCore qsqrt slots pool budget v pr = []) ∧
    ((∀ slot ∈ slots, ∀ i, i < pool.rows.length →
        eligible slot (pool.rows.getD i default).pos = false) →
      optimizeXiCore qsqrt slots pool budget v pr = []) := by
  constructor
  · intro hrows
    apply optimizeXiCore_eq_nil_of_varset_nil
    simp [ilpVarset, hrows]
  · intro hinel
    apply optimizeXiCore_eq_nil_of_varset_nil
    rw [List.eq_nil_iff_forall_not_mem]
    rintro ⟨i, j⟩ hm
    obtain ⟨hi, hj, he⟩ := mem_ilpVarset.1 hm
    have hmem : slots.getD j "" ∈ slots := by
      rw [List.getD_eq_getElem?_getD, List.getElem?_eq_getElem hj]
      exact List.getElem_mem hj
    rw [hinel _ hmem i hi] at he
    cases he

/-- Witness for C8: the empty pool under formation `4-3-3`. -/
theorem optimize_empty_pool_witness :
    ("4-3-3", slots433) ∈ FORMATIONS ∧
    optimizeXiCore qsqrt0 slots433 poolEmpty none vFalse [] = [] :=
  ⟨by decide,
   (optimize_empty_pool_or_no_eligible qsqrt0 "4-3-3" slots433 poolEmpty none
      vFalse [] (by decide)).1 rfl⟩

/-! ### Claim C10 -/

/-- C10: a budget-constrained call on a pool lacking the global `score`
column silently produces exactly the unconstrained Hungarian assignment
(the `KeyError` from `pool.loc[i,"score"]` is swallowed and the budget is
ignored); no error and no signal distinguish it from the unconstrained
call. -/
theorem budget_ignored_without_score (qsqrt : ℚ → ℚ) (f : String)
    (slots : List String) (pool : DF) (b : ℚ)
    (v : Nat × Nat → Bool) (pr : List (Nat × Nat))
    (_hf : (f, slots) ∈ FORMATIONS) (hscore : pool.score = none) :
    optimizeXiCore qsqrt slots pool (some b) v pr =
      optimizeXiCore qsqrt slots pool none v pr := by
  by_cases hvs : ilpVarset pool slots = []
  · rw [optimizeXiCore_eq_nil_of_varset_nil hvs,
      optimizeXiCore_eq_nil_of_varset_nil hvs]
  · simp only [optimizeXiCore]
    rw [if_pos ⟨hscore, hvs⟩]

/-- Witness for C10 at a concrete score-less pool with a zero budget. -/
theorem budget_ignored_without_score_witness :
    poolNoScore.score = none ∧
    optimizeXiCore qsqrt0 slots433 poolNoScore (some 0) vFalse [(0, 0)] =
      optimizeXiCore qsqrt0 slots433 poolNoScore none vFalse [(0, 0)] :=
  ⟨rfl,
   budget_ignored_without_score qsqrt0 "4-3-3" slots433 poolNoScore 0 vFalse
     [(0, 0)] (by decide) rfl⟩

/-! ### Claim C3 (corrected) -/

/-- The concrete variable set of the one-goalkeeper scored pool. -/
lemma varset_poolScored : ilpVarset poolScored slots433 = [(0, 0)] := by decide

/-- The one-goalkeeper pool cannot fill eleven slots: the integer program is
infeasible for every budget. -/
lemma poolScored_infeasible (b : ℚ) :
    ¬ ∃ sel, IlpFeasible poolScored slots433 b sel := by
  refine not_feasible_of_unfilled_slot (j := 1) (by decide) (fun i hm => ?_)
  rw [varset_poolScored] at hm
  simp at hm

/-- Counterexample to C3 as stated: with a scored one-goalkeeper pool and
budget 0 the integer program is infeasible but raises nothing, so the
budget-constrained call returns the EMPTY assignment even though the
unconstrained mode returns a nonempty one — it does not fall back. -/
theorem infeasible_no_fallback_cex :
    SolverOk poolScored slots433 0 vFalse ∧
    ValidMatching poolScored.rows.length slots433.length [(0, 0)] ∧
    optimizeXiCore qsqrt0 slots433 poolScored (some 0) vFalse [(0, 0)] = [] ∧
    optimizeXiCore qsqrt0 slots433 poolScored none vFalse [(0, 0)] =
      [("GK", 0)] :=
  ⟨Or.inr ⟨poolScored_infeasible 0, by decide⟩, by decide, by decide,
   by with_unfolding_all decide⟩

/-- C3 amended: the budget-constrained call falls back to the unconstrained
Hungarian mode exactly when the integer-program attempt raises an exception
(the pool lacks a `score` column while at least one variable exists); when
the program is merely infeasible — no exception — the call returns the empty
assignment instead of falling back. -/
theorem budget_fallback_behavior (qsqrt : ℚ → ℚ) (f : String)
    (slots : List String) (pool : DF) (b : ℚ)
    (v : Nat × Nat → Bool) (pr : List (Nat × Nat))
    (_hf : (f, slots) ∈ FORMATIONS) :
    (pool.score = none ∧ ilpVarset pool slots ≠ [] →
      optimizeXiCore qsqrt slots pool (some b) v pr =
        hungarianAssign qsqrt pool slots pr) ∧
    (pool.score ≠ none → SolverOk pool slots b v →
      (¬ ∃ sel, IlpFeasible pool slots b sel) →
      optimizeXiCore qsqrt slots pool (some b) v pr = []) := by
  constructor
  · intro hc
    simp only [optimizeXiCore]
    rw [if_pos hc]
  · intro hscore hok hinf
    simp only [optimizeXiCore]
    rw [if_neg (fun hc => hscore hc.1)]
    rcases hok with hfeas | ⟨-, hnil⟩
    · exact absurd ⟨_, hfeas⟩ hinf
    · rw [hnil]
      rfl

/-- Witness for C3's amended statement: the exception path at a concrete
score-less pool produces the Hungarian assignment. -/
theorem budget_fallback_behavior_witness :
    (poolNoScore.score = none ∧ ilpVarset poolNoScore slots433 ≠ []) ∧
    optimizeXiCore qsqrt0 slots433 poolNoScore (some 0) vFalse [(0, 0)] =
      hungarianAssign qsqrt0 poolNoScore slots433 [(0, 0)] :=
  ⟨⟨rfl, by decide⟩,
   (budget_fallback_behavior qsqrt0 "4-3-3" slots433 poolNoScore 0 vFalse
      [(0, 0)] (by decide)).1 ⟨rfl, by decide⟩⟩

/-! ### Claim C2 (corrected) -/

/-- Counterexample to C2 as stated: a pool whose only player has market
value 50 but which lacks a `score` column.  The budget-0 call falls into the
Hungarian fallback, returns that player, and the selected market value (50)
exceeds the budget (0) — neither an empty assignment nor only zero-value
players. -/
theorem budget_zero_claim_false :
    (∃ r ∈ poolNoScore.rows, ∃ q, r.market_value_mil = some q ∧ 0 < q) ∧
    optimizeXiCore qsqrt0 slots433 poolNoScore (some 0) vFalse [(0, 0)] =
      [("GK", 0)] ∧
    selectedValue poolNoScore
      (optimizeXiCore qsqrt0 slots433 poolNoScore (some 0) vFalse [(0, 0)]) = 50 ∧
    ¬ (optimizeXiCore qsqrt0 slots433 poolNoScore (some 0) vFalse [(0, 0)] = [] ∨
       ∀ p ∈ optimizeXiCore qsqrt0 slots433 poolNoScore (some 0) vFalse [(0, 0)],
         (poolNoScore.rows.getD p.2 default).market_value_mil = some 0) := by
  have hres : optimizeXiCore qsqrt0 slots433 poolNoScore (some 0) vFalse
      [(0, 0)] = [("GK", 0)] := by with_unfolding_all decide
  refine ⟨⟨gkRow50, by decide, 50, rfl, by with_unfolding_all decide⟩, hres,
    by with_unfolding_all decide, ?_⟩
  rintro (h | h)
  · rw [hres] at h
    cases h
  · have h2 := h ("GK", 0) (by rw [hres]; exact List.mem_cons_self _ _)
    exact absurd h2 (by with_unfolding_all decide)

/-- C2 amended: whenever the integer-program branch actually runs (the pool
has a `score` column), every market value is present and nonnegative, and
the budget is nonnegative, the total market value of the selected players
never exceeds the budget; with budget 0 every selected player has market
value 0.  (When the branch raises instead, the Hungarian fallback ignores
the budget — see the counterexample.) -/
theorem budget_respected_when_ilp_runs (qsqrt : ℚ → ℚ) (f : String)
    (slots : List String) (pool : DF) (b : ℚ)
    (v : Nat × Nat → Bool) (pr : List (Nat × Nat))
    (hf : (f, slots) ∈ FORMATIONS)
    (hscore : pool.score ≠ none)
    (hmv : ∀ r ∈ pool.rows, ∃ q, r.market_value_mil = some q ∧ 0 ≤ q)
    (hb : 0 ≤ b)
    (hok : SolverOk pool slots b v) :
    selectedValue pool (optimizeXiCore qsqrt slots pool (some b) v pr) ≤ b ∧
    (b = 0 → ∀ p ∈ optimizeXiCore qsqrt slots pool (some b) v pr,
      (pool.rows.getD p.2 default).market_value_mil = some 0) := by
  have hout : optimizeXiCore qsqrt slots pool (some b) v pr =
      ((ilpVarset pool slots).filter v).map (fun p => (slots.getD p.2 "", p.1)) := by
    simp only [optimizeXiCore]
    rw [if_neg (fun hc => hscore hc.1)]
  set g : Nat → ℚ := fun i => ((pool.rows.getD i default).market_value_mil).getD 0 with hg
  have hgnn : ∀ i, 0 ≤ g i := by
    intro i
    by_cases hi : i < pool.rows.length
    · obtain ⟨q, hq, hq0⟩ := hmv (pool.rows.getD i default)
        (by rw [List.getD_eq_getElem?_getD, List.getElem?_eq_getElem hi]
            exact List.getElem_mem hi)
      show 0 ≤ ((pool.rows.getD i default).market_value_mil).getD 0
      rw [hq]
      simpa using hq0
    · show 0 ≤ ((pool.rows.getD i default).market_value_mil).getD 0
      have hd : pool.rows.getD i default = default := by
        rw [List.getD_eq_getElem?_getD, List.getElem?_eq_none (le_of_not_lt hi)]
        rfl
      rw [hd]
      exact le_refl 0
  have hselval : ∀ sel : List (Nat × Nat),
      selectedValue pool (sel.map (fun p => (slots.getD p.2 "", p.1))) =
        ((sel.map Prod.fst).map g).sum := by
    intro sel
    simp only [selectedValue, List.map_map]
    rfl
  rcases hok with hfeas | ⟨-, hnil⟩
  · obtain ⟨hsub, hslot, hplayer, hbudget⟩ := hfeas
    set sel := (ilpVarset pool slots).filter v with hsel
    by_cases hrows : pool.rows = []
    · have hvs : ilpVarset pool slots = [] := by simp [ilpVarset, hrows]
      have hselnil : sel = [] := by rw [hsel, hvs]; rfl
      rw [hout, hselnil]
      refine ⟨by simpa [selectedValue] using hb, ?_⟩
      intro _ p hp
      simp at hp
    · -- the pool is nonempty, so the budget constraint is active
      obtain ⟨r0, hr0⟩ : ∃ r0, r0 ∈ pool.rows := by
        cases hrr : pool.rows with
        | nil => exact absurd hrr hrows
        | cons a t => exact ⟨a, List.mem_cons_self _ _⟩
      obtain ⟨q0, hq0, -⟩ := hmv r0 hr0
      have hany : anyMV pool = true := by
        rw [anyMV, List.any_eq_true]
        exact ⟨r0, hr0, by simp [hq0]⟩
      have hbound := hbudget hany
      -- the slot constraint for slot 0 forces a nonempty selection
      have hslots0 : 0 < slots.length :=
        List.length_pos.2 (formations_slots_ne_nil hf)
      have hselne : sel ≠ [] := by
        intro hnil2
        have := hslot 0 hslots0
        rw [hnil2] at this
        simp at this
      have hlen1 : 1 ≤ sel.length :=
        Nat.one_le_iff_ne_zero.2 (fun hz => hselne (List.length_eq_zero.1 hz))
      have hnd : (sel.map Prod.fst).Nodup := nodup_fst_of_player_constraint sel hplayer
      have hlt : ∀ i ∈ sel.map Prod.fst, i < pool.rows.length := by
        intro i hi
        obtain ⟨⟨i', j'⟩, hmem, rfl⟩ := List.mem_map.1 hi
        exact (mem_ilpVarset.1 (hsub hmem)).1
      have hsum1 : ((sel.map Prod.fst).map g).sum ≤ poolMvSum pool :=
        sum_map_le_range_sum hnd hlt hgnn
      have hmv0 : 0 ≤ poolMvSum pool := by
        apply list_sum_nonneg
        intro x hx
        obtain ⟨i, -, rfl⟩ := List.mem_map.1 hx
        exact hgnn i
      have hsum2 : poolMvSum pool ≤ poolMvSum pool * (sel.length : ℚ) := by
        have h1q : (1 : ℚ) ≤ (sel.length : ℚ) := by exact_mod_cast hlen1
        nlinarith
      have hmain : selectedValue pool (optimizeXiCore qsqrt slots pool (some b) v pr) ≤ b := by
        rw [hout, hselval]
        calc ((sel.map Prod.fst).map g).sum ≤ poolMvSum pool := hsum1
          _ ≤ poolMvSum pool * (sel.length : ℚ) := hsum2
          _ ≤ b := hbound
      refine ⟨hmain, ?_⟩
      rintro rfl p hp
      rw [hout] at hp
      obtain ⟨⟨i, j⟩, hmem, rfl⟩ := List.mem_map.1 hp
      have hi : i < pool.rows.length := (mem_ilpVarset.1 (hsub hmem)).1
      obtain ⟨q, hq, hq0⟩ := hmv (pool.rows.getD i default)
        (by rw [List.getD_eq_getElem?_getD, List.getElem?_eq_getElem hi]
            exact List.getElem_mem hi)
      have hterm : g i ∈ (sel.map Prod.fst).map g :=
        List.mem_map_of_mem g (List.mem_map_of_mem Prod.fst hmem)
      have hsle : g i ≤ ((sel.map Prod.fst).map g).sum :=
        list_single_le_sum (fun x hx => by
          obtain ⟨i', -, rfl⟩ := List.mem_map.1 hx; exact hgnn i') hterm
      have hq0' : g i = q := by
        show ((pool.rows.getD i default).market_value_mil).getD 0 = q
        rw [hq]
        rfl
      have : q ≤ 0 := by
        have htot : ((sel.map Prod.fst).map g).sum ≤ 0 := le_trans hsum1 (le_trans hsum2 hbound)
        rw [hq0'] at hsle
        linarith
      have : q = 0 := le_antisymm this hq0
      rw [hq, this]
  · rw [hout, hnil]
    refine ⟨by simpa [selectedValue] using hb, ?_⟩
    intro _ p hp
    simp at hp

/-- Witness for C2's amended statement at a concrete scored pool whose
integer program is infeasible (so the solver reads back nothing). -/
theorem budget_respected_when_ilp_runs_witness :
    (0 : ℚ) ≤ 0 ∧
    selectedValue poolScored
      (optimizeXiCore qsqrt0 slots433 poolScored (some 0) vFalse []) ≤ 0 :=
  ⟨le_refl 0,
   (budget_respected_when_ilp_runs qsqrt0 "4-3-3" slots433 poolScored 0 vFalse
      [] (by decide) (fun h => Option.noConfusion h)
      (fun r hr => by
        rw [show poolScored.rows = [gkRow10] from rfl, List.mem_singleton] at hr
        exact ⟨10, by rw [hr]; rfl, by norm_num⟩)
      (le_refl 0)
      (Or.inr ⟨poolScored_infeasible 0, by decide⟩)).1⟩

/-! ### Claim C4 -/

/-- C4: for every slot identifier and raw position tag, `eligible` holds iff
some string in the slot's accepted tag set (the slot name itself when the
slot is absent from `ELIGIBLE_MAP`) is a substring of the uppercased raw
position tag. -/
theorem eligibility_iff_substring (slot rp : String) :
    eligible slot rp = true ↔ EligibleSpec slot rp := by
  simp [eligible, EligibleSpec, List.any_eq_true, containsSub_correct]

/-! ### Claim C6 -/

/-- C6: when the weight configuration supplies all four recognized keys with
value 0, `score_players` gives every player the score exactly 0. -/
theorem score_zero_of_zero_weights (qsqrt : ℚ → ℚ) (df : DF) (w : Weights)
    (hm : w.minutes = some 0) (hg : w.goals = some 0)
    (ha : w.assists = some 0) (hx : w.xG = some 0) :
    (score_players qsqrt df w).score = some (List.replicate df.rows.length 0) := by
  simp [score_players, hm, hg, ha, hx]

/-- Witness for C6 at a concrete pool and the all-zero weight dictionary. -/
theorem score_zero_of_zero_weights_witness :
    (Weights.mk (some 0) (some 0) (some 0) (some 0)).minutes = some 0 ∧
    (score_players qsqrt0 poolScored (Weights.mk (some 0) (some 0) (some 0) (some 0))).score
      = some (List.replicate poolScored.rows.length 0) :=
  ⟨rfl, score_zero_of_zero_weights qsqrt0 poolScored _ rfl rfl rfl rfl⟩

/-! ### Claim C5 -/

/-- C5: when a metric's non-missing values are constant across the pool
(which covers a zero standard deviation, an undefined one, and the empty
pool), that metric's contribution to every player's weighted score is
exactly 0, and each output score is the plain rational sum of the four
metric contributions (in particular the score column carries no NaN: its
entries live in `ℚ`). -/
theorem constant_metric_contributes_zero (qsqrt : ℚ → ℚ) (df : DF) (w : Weights)
    (m : Metric)
    (hconst : ∀ x ∈ presentVals (metricCol df m),
      ∀ y ∈ presentVals (metricCol df m), x = y) :
    (∀ i, metricTerm qsqrt df w m i = 0) ∧
    (∀ i, i < df.rows.length →
      ((score_players qsqrt df w).score.getD []).getD i 0 =
        metricTerm qsqrt df w .minutes i + metricTerm qsqrt df w .goals i +
          metricTerm qsqrt df w .assists i + metricTerm qsqrt df w .xG i) := by
  constructor
  · intro i
    unfold metricTerm
    rw [zscore_degenerate_entry qsqrt hconst i, mul_zero]
  · intro i hi
    simp only [score_players, metricTerm, metricCol, metricWeight, Option.getD_some]
    rw [List.getD_eq_getElem?_getD, List.getElem?_map, List.getElem?_range hi]
    rfl

/-- Witness for C5: the (single-valued, hence constant) goals column of a
concrete pool contributes 0. -/
theorem constant_metric_contributes_zero_witness :
    (∀ x ∈ presentVals (metricCol poolScored .goals),
      ∀ y ∈ presentVals (metricCol poolScored .goals), x = y) ∧
    metricTerm qsqrt0 poolScored (Weights.mk none none none none) .goals 0 = 0 :=
  ⟨by decide,
   (constant_metric_contributes_zero qsqrt0 poolScored
      (Weights.mk none none none none) .goals (by decide)).1 0⟩

/-! ### Claim C9 -/

/-- C9: `score_players` (and hence `score_for_slot`) is a pure transform
against the frame heap: every frame that existed before the call — in
particular the caller's input pool — is unchanged afterwards, and the
returned frame is the input frame with the score column(s) attached (same
rows, `score` present). -/
theorem score_is_pure_transform (qsqrt : ℚ → ℚ) (h : Heap) (r : Nat)
    (w : Weights) (slot : String) (_hr : r < h.length) :
    (∀ k, k < h.length →
      heapRead (score_players_heap qsqrt h r w).1 k = heapRead h k) ∧
    heapRead (score_players_heap qsqrt h r w).1
        (score_players_heap qsqrt h r w).2 =
      score_players qsqrt (heapRead h r) w ∧
    (score_players qsqrt (heapRead h r) w).rows = (heapRead h r).rows ∧
    (score_players qsqrt (heapRead h r) w).score.isSome = true ∧
    (∀ k, k < h.length →
      heapRead (score_for_slot_heap qsqrt h r slot).1 k = heapRead h k) ∧
    heapRead (score_for_slot_heap qsqrt h r slot).1
        (score_for_slot_heap qsqrt h r slot).2 =
      score_for_slot qsqrt (heapRead h r) slot := by
  have hread1 : ∀ w', heapRead (score_players_heap qsqrt h r w').1
      (score_players_heap qsqrt h r w').2 = score_players qsqrt (heapRead h r) w' := by
    intro w'
    simp only [score_players_heap, dfCopy, heapWrite, heapRead,
      List.getD_eq_getElem?_getD]
    rw [List.getElem?_set_self (by simp), Option.getD_some,
      List.getElem?_concat_length, Option.getD_some]
  have hframe1 : ∀ w' k, k < h.length →
      heapRead (score_players_heap qsqrt h r w').1 k = heapRead h k := by
    intro w' k hk
    simp only [score_players_heap, dfCopy, heapWrite, heapRead,
      List.getD_eq_getElem?_getD]
    rw [List.getElem?_set_ne (by omega), List.getElem?_append_left hk]
  refine ⟨hframe1 w, hread1 w, rfl, rfl, ?_, ?_⟩
  · intro k hk
    simp only [score_for_slot_heap, dfCopy, heapWrite, heapRead,
      List.getD_eq_getElem?_getD]
    rw [List.getElem?_set_ne ?hne, List.getElem?_append_left ?hlt]
    case hne =>
      simp only [score_players_heap, dfCopy, heapWrite, List.length_set,
        List.length_append, List.length_cons, List.length_nil]
      omega
    case hlt =>
      simp only [score_players_heap, dfCopy, heapWrite, List.length_set,
        List.length_append, List.length_cons, List.length_nil]
      omega
    have hk' := hframe1 (slot_weights slot) k hk
    simpa only [heapRead, List.getD_eq_getElem?_getD] using hk'
  · have hlen : (score_players_heap qsqrt h r (slot_weights slot)).1.length =
        h.length + 1 := by
      simp [score_players_heap, dfCopy, heapWrite]
    simp only [score_for_slot_heap, dfCopy, heapWrite, heapRead,
      List.getD_eq_getElem?_getD]
    rw [List.getElem?_set_self (by simp), Option.getD_some,
      List.getElem?_concat_length, Option.getD_some]
    have := hread1 (slot_weights slot)
    simp only [heapRead, List.getD_eq_getElem?_getD] at this
    rw [this]
    rfl

/-- Witness for C9 on a one-frame heap. -/
theorem score_is_pure_transform_witness :
    0 < ([poolScored] : Heap).length ∧
    heapRead (score_players_heap qsqrt0 [poolScored] 0
        (Weights.mk none none none none)).1 0 = heapRead [poolScored] 0 :=
  ⟨by decide,
   (score_is_pure_transform qsqrt0 [poolScored] 0
      (Weights.mk none none none none) "GK" (by decide)).1 0 (by decide)⟩

/-! ### Claim C7 (corrected) -/

/-- Counterexample to C7 as stated: comparing the empty `4-3-3` lineup with
itself yields a NaN (not 0) mean-age delta, since the mean age of a lineup
with no players is NaN and `NaN - NaN = NaN`. -/
theorem compare_self_claim_false :
    ¬ DeltaZero (compare_squads (Squad.new "4-3-3") (Squad.new "4-3-3")).2.2 :=
  fun h => absurd h.2.1 (by decide)

/-- C7 amended: `compare_squads(A, A)` yields a delta of exactly 0 for the
five summed metrics for every lineup; the mean-age delta is 0 whenever some
age is present in the lineup, and NaN when no age is present. -/
theorem compare_self_delta (a : Squad) :
    ((compare_squads a a).2.2.valorTotal = 0 ∧
     (compare_squads a a).2.2.minTotales = 0 ∧
     (compare_squads a a).2.2.golesTotales = 0 ∧
     (compare_squads a a).2.2.asistTotales = 0 ∧
     (compare_squads a a).2.2.xgTotal = 0) ∧
    ((∃ row ∈ a.to_dataframe, row.edad.isSome) →
      (compare_squads a a).2.2.edadMedia = some 0) ∧
    ((∀ row ∈ a.to_dataframe, row.edad = none) →
      (compare_squads a a).2.2.edadMedia = none) := by
  refine ⟨⟨?_, ?_, ?_, ?_, ?_⟩, ?_, ?_⟩
  · simp [compare_squads]
  · simp [compare_squads]
  · simp [compare_squads]
  · simp [compare_squads]
  · simp [compare_squads]
  · rintro ⟨row, hrow, hsome⟩
    obtain ⟨q, hq⟩ := Option.isSome_iff_exists.1 hsome
    have hmem : q ∈ presentVals (a.to_dataframe.map (·.edad)) := by
      simp only [presentVals, List.mem_filterMap, List.mem_map, id]
      exact ⟨some q, ⟨row, hrow, hq⟩, rfl⟩
    have hne : (presentVals (a.to_dataframe.map (·.edad))).length ≠ 0 :=
      List.length_pos.2 (List.ne_nil_of_mem hmem) |>.ne'
    simp [compare_squads, agg, seriesMean, hne, optSub]
  · intro hall
    have hnil : presentVals (a.to_dataframe.map (·.edad)) = [] := by
      simp only [presentVals]
      rw [List.filterMap_eq_nil_iff]
      intro o ho
      obtain ⟨row, hrow, rfl⟩ := List.mem_map.1 ho
      simp [hall row hrow]
    simp [compare_squads, agg, seriesMean, hnil, optSub]

/-- Witness for C7's amended statement at a lineup containing an age. -/
theorem compare_self_delta_witness :
    (∃ row ∈ sqA.to_dataframe, row.edad.isSome) ∧
    (compare_squads sqA sqA).2.2.edadMedia = some 0 :=
  ⟨by decide, (compare_self_delta sqA).2.1 (by decide)⟩

end XiService

